import Mathlib

set_option maxRecDepth 100000

/-!
# Verification of the KML ingestion / spatial-timeline service

A shallow embedding, in Lean 4, of the core pipeline of this repository:

* the KML importer (`parseKML`, `processFolderPlacemarks`, `processPlacemark`,
  `parseCoordinates`, `buildPointWKT`, `buildLineStringWKT`, `buildPolygonWKT`,
  `importPlacemarks` from the command-line importer),
* the store layer (`GetTimeline`, `parseTimestampFromName`,
  `extractPointFromGeoJSON` from `internal/store/placemark.go`),
* the HTTP parameter handling (`getFloatParam`, `GetPlacemarksInBBox` from
  `internal/api/handlers.go`).

Machine floats are modelled as rationals (`ℚ`); all inputs exercised by the
theorems below are short decimal literals, on which the two agree.  Strings
are Lean `String`s; the Go code only ever byte-slices ASCII data, where Go
byte indexing and Lean character indexing agree.
-/

namespace Mandalay

/-! ## Decimal number parsing

`fmt.Sscanf(s, "%f", &x)` (used by `parseCoordinates`) scans a maximal
float-shaped prefix of `s` and ignores anything after it; the scan fails when
no digits occur in the mantissa, or when an exponent marker is not followed by
digits.  `strconv.ParseFloat` (used by `getFloatParam`) additionally requires
the whole string to be consumed.  Both are modelled for plain decimal /
scientific literals (the hexadecimal, infinity and NaN forms never occur in
the data these claims range over). -/

/-- Digits consumed from the front of a character list, with their value. -/
def takeDigits : List Char → Nat → Nat → (Nat × Nat × List Char)
  | [], acc, count => (acc, count, [])
  | c :: cs, acc, count =>
    if c.isDigit then takeDigits cs (acc * 10 + (c.toNat - '0'.toNat)) (count + 1)
    else (acc, count, c :: cs)

/-- Optional sign character; `true` means negative. -/
def takeSign : List Char → (Bool × List Char)
  | '+' :: cs => (false, cs)
  | '-' :: cs => (true, cs)
  | cs => (false, cs)

/-- Scan a float-shaped prefix (sign, digits, optional fraction, optional
exponent) from a character list, as Go's `fmt` scanner does for `%f`.
Returns the value and the unconsumed remainder, or `none` when the prefix is
not a number.  The value `±(ip·10^f + fp) / 10^f`, scaled by the exponent, is
assembled with integer arithmetic and a single `mkRat`. -/
def scanFloat (cs : List Char) : Option (ℚ × List Char) :=
  match takeSign cs with
  | (neg, cs₁) =>
    match takeDigits cs₁ 0 0 with
    | (ip, ipCount, cs₂) =>
      match (match cs₂ with
             | '.' :: rest => takeDigits rest 0 0
             | _ => (0, 0, cs₂)) with
      | (fp, fpCount, cs₃) =>
        if ipCount = 0 ∧ fpCount = 0 then none
        else
          let num : ℤ := (if neg then -1 else 1) * (ip * 10 ^ fpCount + fp : ℕ)
          match cs₃ with
          | 'e' :: rest => scanFloatExp num fpCount rest
          | 'E' :: rest => scanFloatExp num fpCount rest
          | rest => some (mkRat num (10 ^ fpCount), rest)
where
  /-- Exponent part: the Go scanner includes the `e` in the numeric token, so
  an `e` not followed by digits makes the whole scan fail. -/
  scanFloatExp (num : ℤ) (fpCount : ℕ) (cs : List Char) : Option (ℚ × List Char) :=
    match takeSign cs with
    | (eneg, cs₁) =>
      match takeDigits cs₁ 0 0 with
      | (ev, evCount, cs₂) =>
        if evCount = 0 then none
        else if eneg then some (mkRat num (10 ^ (fpCount + ev)), cs₂)
        else some (mkRat (num * 10 ^ ev) (10 ^ fpCount), cs₂)

/-- `fmt.Sscanf(s, "%f", &x)`: prefix scan, trailing characters ignored. -/
def sscanfFloat (s : String) : Option ℚ :=
  (scanFloat s.data).map (·.1)

/-- `strconv.ParseFloat(s, 64)`: the whole string must be consumed. -/
def parseFloatFull (s : String) : Option ℚ :=
  match scanFloat s.data with
  | some (v, []) => some v
  | _ => none

/-! ## String splitting helpers

Character-list implementations of the Go string functions the importer uses
(`strings.Fields`, `strings.Split`, `strings.TrimSpace`); all data here is
ASCII, where Go's byte-wise operations and these character-wise ones agree. -/

/-- Split at every separator character, keeping empty parts (the behaviour
of `strings.Split` for a one-character separator). -/
def splitCharsAux (p : Char → Bool) : List Char → List Char → List String
  | [], acc => [String.mk acc.reverse]
  | c :: rest, acc =>
    if p c then String.mk acc.reverse :: splitCharsAux p rest []
    else splitCharsAux p rest (c :: acc)

/-- Split a string at every character satisfying `p`, keeping empty parts. -/
def splitChars (p : Char → Bool) (s : String) : List String :=
  splitCharsAux p s.data []

/-- `strings.Split(part, ",")`. -/
def splitComma (s : String) : List String :=
  splitChars (fun c => c = ',') s

/-- `strings.TrimSpace`: drop whitespace from both ends. -/
def goTrim (s : String) : String :=
  String.mk (((s.data.dropWhile Char.isWhitespace).reverse.dropWhile
    Char.isWhitespace).reverse)

/-! ## Coordinate Parser (`parseCoordinates`, part_000 lines 300–322) -/

/-- `strings.Fields`: split around runs of whitespace, dropping empty parts. -/
def goFields (s : String) : List String :=
  (splitChars Char.isWhitespace s).filter (fun part => part ≠ "")

/-- A coordinate pair `(lon, lat)` — the source's `[2]float64`. -/
abbrev Coord := ℚ × ℚ

/-- The body of the `for _, part := range parts` loop of `parseCoordinates`:
a token must split on commas into at least two components whose first two
components both scan as floats; otherwise it is skipped (`continue`). -/
def parseCoordsLoop : List String → List Coord
  | [] => []
  | part :: rest =>
    match splitComma part with
    | v0 :: v1 :: _ =>
      match sscanfFloat v0, sscanfFloat v1 with
      | some lon, some lat => (lon, lat) :: parseCoordsLoop rest
      | _, _ => parseCoordsLoop rest
    | _ => parseCoordsLoop rest

/-- `parseCoordinates` (part_000 lines 300–322): whitespace-split the trimmed
text, then comma-split each token, skipping malformed tokens. -/
def parseCoordinates (coordsText : String) : List Coord :=
  parseCoordsLoop (goFields (goTrim coordsText))

/-! ## Geometry Builder (part_000 lines 324–384) -/

/-- Fixed-precision rendering of one coordinate component, modelling
`fmt.Sprintf("%f", x)` (six fractional digits, rounded): with `q = n / d`,
the scaled magnitude `⌊|n| · 10⁶ / d + 1/2⌋` computed in integers. -/
def fmtFloat6 (q : ℚ) : String :=
  let scaled : ℕ := (q.num.natAbs * 2000000 + q.den) / (2 * q.den)
  let fpDigits : String := toString (scaled % 1000000)
  let fpPadded : String :=
    String.mk (List.replicate (6 - fpDigits.length) '0') ++ fpDigits
  (if q.num < 0 then "-" else "") ++ toString (scaled / 1000000) ++ "." ++ fpPadded

/-- `fmt.Sprintf("%f %f", c[0], c[1])`. -/
def fmtCoord (c : Coord) : String :=
  fmtFloat6 c.1 ++ " " ++ fmtFloat6 c.2

/-- `strings.Join(parts, ", ")`. -/
def joinComma : List String → String
  | [] => ""
  | [s] => s
  | s :: rest => s ++ ", " ++ joinComma rest

/-- `buildPointWKT` (lines 324–330): empty parse ⇒ empty WKT, else only the
first coordinate is used. -/
def buildPointWKT (coordsText : String) : String :=
  match parseCoordinates coordsText with
  | [] => ""
  | c :: _ => "POINT(" ++ fmtCoord c ++ ")"

/-- `buildLineStringWKT` (lines 332–344): fewer than two coordinates ⇒ empty
WKT. -/
def buildLineStringWKT (coordsText : String) : String :=
  if (parseCoordinates coordsText).length < 2 then ""
  else "LINESTRING(" ++ joinComma ((parseCoordinates coordsText).map fmtCoord) ++ ")"

/-- A KML `<Polygon>`: the outer boundary ring text and the inner boundary
(hole) ring texts. -/
structure KmlPolygon where
  outerBoundary : String
  innerBoundaries : List String
deriving DecidableEq

/-- Close a ring exactly as lines 352–355 / 371–373 do: when the first parsed
point differs from the last, the first point is appended. Only called on
non-empty lists. -/
def closeRing (r : List Coord) : List Coord :=
  if r.head? = r.getLast? then r else r ++ [r.headD (0, 0)]

/-- The rings `buildPolygonWKT` (lines 346–384) renders: `none` when the outer
boundary parses to fewer than 3 coordinates (geometry dropped); holes parsing
to fewer than 3 coordinates are skipped individually (`continue`, line 368). -/
def polygonRings (p : KmlPolygon) : Option (List (List Coord)) :=
  if (parseCoordinates p.outerBoundary).length < 3 then none
  else
    some (closeRing (parseCoordinates p.outerBoundary) ::
      p.innerBoundaries.filterMap fun ib =>
        if (parseCoordinates ib).length < 3 then none
        else some (closeRing (parseCoordinates ib)))

/-- `buildPolygonWKT` (lines 346–384), rendered from `polygonRings`. -/
def buildPolygonWKT (p : KmlPolygon) : String :=
  match polygonRings p with
  | none => ""
  | some rings =>
    "POLYGON(" ++
      joinComma (rings.map fun r => "(" ++ joinComma (r.map fmtCoord) ++ ")") ++ ")"

/-! ## Feature Normalizer (`processPlacemark`, part_000 lines 249–298) -/

/-- One `<Data name=...><value>...</value></Data>` entry. -/
structure DataEntry where
  name : String
  value : String
deriving DecidableEq

/-- A raw `<Placemark>` node, after XML decoding (part_000 lines 73–81).
`point`/`lineString`/`polygon` model the three nullable geometry pointers;
`extendedData` models the nullable `*ExtendedData`. -/
structure Placemark where
  name : String
  description : String
  styleUrl : String
  point : Option String
  lineString : Option String
  polygon : Option KmlPolygon
  extendedData : Option (List DataEntry)
deriving DecidableEq

/-- The flattened record written to the database (part_000 lines 118–128).
`ExtendedData` models the Go `map[string]string` as an association list with
in-place update (see `goMapInsert`): entry order is an internal representation
detail of the map, lookups are what the map exposes. -/
structure PlacemarkRecord where
  Name : String
  Description : String
  StyleID : String
  FolderPath : List String
  GeometryType : String
  GeomWKT : String
  CoordinatesRaw : String
  MediaLinks : List String
  ExtendedData : List (String × String)
deriving DecidableEq

/-- Assignment `m[k] = v` on a Go `map[string]string` modelled as an
association list: replace the value of an existing key in place, or append a
new binding. -/
def goMapInsert : List (String × String) → String → String → List (String × String)
  | [], k, v => [(k, v)]
  | (k₀, v₀) :: rest, k, v =>
    if k₀ = k then (k₀, v) :: rest else (k₀, v₀) :: goMapInsert rest k v

/-- One iteration of the `for _, data := range pm.ExtendedData.Data` loop
(lines 278–284): the reserved key `gx_media_links` is appended to the media
link list, every other entry is written into the map. -/
def extDataStep (acc : List (String × String) × List String) (d : DataEntry) :
    List (String × String) × List String :=
  if d.name = "gx_media_links" then (acc.1, acc.2 ++ [d.value])
  else (goMapInsert acc.1 d.name d.value, acc.2)

/-- The whole extended-data loop: `(extData, mediaLinks)`. -/
def partitionExtendedData (ds : List DataEntry) : List (String × String) × List String :=
  ds.foldl extDataStep ([], [])

/-- `strings.TrimPrefix(s, "#")` as used on line 272. -/
def trimStyleHash (s : String) : String :=
  match s.data with
  | '#' :: rest => String.mk rest
  | _ => s

/-- The geometry-kind dispatch of `processPlacemark` (lines 252–266): the
first present geometry wins (Point before LineString before Polygon), giving
`(geomType, coordsRaw, geomWKT)`; `none` when no geometry block is present. -/
def placemarkGeometry (pm : Placemark) : Option (String × String × String) :=
  match pm.point, pm.lineString, pm.polygon with
  | some pt, _, _ => some ("Point", goTrim pt, buildPointWKT (goTrim pt))
  | none, some ls, _ => some ("LineString", goTrim ls, buildLineStringWKT (goTrim ls))
  | none, none, some pg => some ("Polygon", goTrim pg.outerBoundary, buildPolygonWKT pg)
  | none, none, none => none

/-- `processPlacemark` (lines 249–298): drop the feature when no geometry
kind is present or when the builder returns an empty WKT, otherwise build
the flat record. -/
def processPlacemark (pm : Placemark) (folderPath : List String) :
    Option PlacemarkRecord :=
  match placemarkGeometry pm with
  | none => none
  | some (geomType, coordsRaw, geomWKT) =>
    if geomWKT = "" then none
    else
      let ext := partitionExtendedData (pm.extendedData.getD [])
      some
        { Name := goTrim pm.name
          Description := goTrim pm.description
          StyleID := trimStyleHash pm.styleUrl
          FolderPath := folderPath
          GeometryType := geomType
          GeomWKT := geomWKT
          CoordinatesRaw := coordsRaw
          MediaLinks := ext.2
          ExtendedData := ext.1 }

/-! ## Tree Walker (`parseKML` lines 196–228, `processFolderPlacemarks` lines
230–247)

Folders nest: a `Folder` holds placemarks and sub-folders.  The nesting is
expressed with a mutual inductive pair so that all traversals below are
structural recursions. -/

mutual
/-- A `<Folder>` node (part_000 lines 67–71). -/
inductive Folder where
  | mk (name : String) (placemarks : List Placemark) (folders : FolderList)

/-- A list of folders (kept as a dedicated type for structural recursion). -/
inductive FolderList where
  | nil
  | cons (f : Folder) (rest : FolderList)
end

def Folder.name : Folder → String
  | .mk n _ _ => n

/-- A `<Document>`: styles are carried separately (modelled by their id
strings only, which is all the import resolution consults). -/
structure Document where
  styleIds : List String
  folders : FolderList
  placemarks : List Placemark

mutual
/-- `processFolderPlacemarks` (lines 230–247), with Go slices read as values:
extend the path with the folder's name, normalize the folder's own placemarks,
then recurse into sub-folders. -/
def processFolderPlacemarks (folder : Folder) (parentPath : List String) :
    List PlacemarkRecord :=
  match folder with
  | .mk name pms subs =>
    let folderPath := parentPath ++ [name]
    (pms.filterMap fun pm => processPlacemark pm folderPath) ++
      processFolderList subs folderPath

/-- The `for _, subfolder := range folder.Folders` loop. -/
def processFolderList (fs : FolderList) (folderPath : List String) :
    List PlacemarkRecord :=
  match fs with
  | .nil => []
  | .cons f rest =>
    processFolderPlacemarks f folderPath ++ processFolderList rest folderPath
end

/-- The record-flattening part of `parseKML` (lines 213–227): top-level
placemarks with the empty path, then each top-level folder. -/
def parseKMLRecords (doc : Document) : List PlacemarkRecord :=
  (doc.placemarks.filterMap fun pm => processPlacemark pm []) ++
    processFolderList doc.folders []

/-! Pre-order enumeration of `(placemark, folder path)` pairs.  This follows
the spec's words in §4.4 — top-level features first, then each folder's
features before its sub-folders' features, the path being the ancestor folder
names — and is compared against the source traversal. -/

mutual
/-- Pre-order feature enumeration of one folder, following the spec's words. -/
def preorderFolder (folder : Folder) (parentPath : List String) :
    List (Placemark × List String) :=
  match folder with
  | .mk name pms subs =>
    let folderPath := parentPath ++ [name]
    (pms.map fun pm => (pm, folderPath)) ++ preorderFolderList subs folderPath

/-- Pre-order feature enumeration of a folder list. -/
def preorderFolderList (fs : FolderList) (folderPath : List String) :
    List (Placemark × List String) :=
  match fs with
  | .nil => []
  | .cons f rest =>
    preorderFolder f folderPath ++ preorderFolderList rest folderPath
end

/-- Pre-order feature enumeration of a whole document, following the spec's
words. -/
def preorderDocument (doc : Document) : List (Placemark × List String) :=
  (doc.placemarks.map fun pm => (pm, ([] : List String))) ++
    preorderFolderList doc.folders []

/-! ## Go slice semantics of the folder-path accumulation

`processFolderPlacemarks` builds the path with
`folderPath := append(parentPath, folder.Name)` and stores the resulting
slice header directly in every record.  Go's `append` writes in place when
the backing array has spare capacity, so sibling sub-folders can share (and
overwrite) one backing array.  This refinement models exactly that: a heap of
fixed-capacity arrays, slice headers `(array, length)`, and `append` with
Go's small-slice capacity doubling. -/

/-- A Go slice header: backing-array index and length. -/
structure GoSlice where
  arr : Nat
  len : Nat
deriving DecidableEq

/-- The heap of backing arrays.  Each array's list length is its capacity;
slots beyond a slice's length hold whatever was last written. -/
structure GoMem where
  arrays : List (List String)
deriving DecidableEq

/-- Capacity of the array backing a slice. -/
def GoMem.cap (m : GoMem) (s : GoSlice) : Nat :=
  (m.arrays.getD s.arr []).length

/-- The elements a slice denotes. -/
def GoMem.read (m : GoMem) (s : GoSlice) : List String :=
  (m.arrays.getD s.arr []).take s.len

/-- Go's capacity growth for a one-element `append` to a full small slice
(`runtime.growslice`, caps < 256 double; string size classes keep the
doubled value). -/
def growCap (oldCap : Nat) : Nat :=
  if oldCap = 0 then 1 else 2 * oldCap

/-- `append(s, x)` for `[]string`: write in place at index `len` when the
backing array has spare capacity, otherwise allocate a fresh array of the
grown capacity holding a copy. -/
def goAppend (m : GoMem) (s : GoSlice) (x : String) : GoMem × GoSlice :=
  if s.len < m.cap s then
    ({ arrays := m.arrays.set s.arr ((m.arrays.getD s.arr []).set s.len x) },
      { arr := s.arr, len := s.len + 1 })
  else
    let content := (m.arrays.getD s.arr []).take s.len ++ [x]
    let newCap := growCap (m.cap s)
    let fresh := content ++ List.replicate (newCap - content.length) ""
    ({ arrays := m.arrays ++ [fresh] },
      { arr := m.arrays.length, len := s.len + 1 })

/-- The slice literal `[]string{}`: length 0, capacity 0 (index 0 of an empty
heap denotes no array, so its capacity is 0 and any append allocates). -/
def emptyGoSlice : GoSlice := { arr := 0, len := 0 }

/-- What a record keeps of a placemark under slice semantics: the `FolderPath`
field is the stored slice header (the other fields are exactly those of
`processPlacemark`, which does not touch the path). -/
structure PlacemarkRecordG where
  Name : String
  FolderPath : GoSlice
deriving DecidableEq

mutual
/-- `processFolderPlacemarks` with Go slice semantics for the path:
`folderPath := append(parentPath, folder.Name)` then the header is stored in
every record of this folder and passed to every sub-folder. -/
def processFolderPlacemarksG (m : GoMem) (folder : Folder) (parentPath : GoSlice) :
    GoMem × List PlacemarkRecordG :=
  match folder with
  | .mk name pms subs =>
    let (m₁, folderPath) := goAppend m parentPath name
    let recs := pms.filterMap fun pm =>
      (processPlacemark pm []).map fun r =>
        { Name := r.Name, FolderPath := folderPath }
    let (m₂, recs₂) := processFolderListG m₁ subs folderPath
    (m₂, recs ++ recs₂)

/-- The sub-folder loop under slice semantics. -/
def processFolderListG (m : GoMem) (fs : FolderList) (folderPath : GoSlice) :
    GoMem × List PlacemarkRecordG :=
  match fs with
  | .nil => (m, [])
  | .cons f rest =>
    let (m₁, r₁) := processFolderPlacemarksG m f folderPath
    let (m₂, r₂) := processFolderListG m₁ rest folderPath
    (m₂, r₁ ++ r₂)
end

/-- `parseKML`'s flattening under slice semantics; every top-level folder is
passed a fresh `[]string{}`. -/
def parseKMLRecordsG (doc : Document) : GoMem × List PlacemarkRecordG :=
  let top := doc.placemarks.filterMap fun pm =>
    (processPlacemark pm []).map fun r =>
      { Name := r.Name, FolderPath := emptyGoSlice }
  let (m, recs) := processFolderListG { arrays := [] } doc.folders emptyGoSlice
  (m, top ++ recs)

/-- The folder paths the importer ends up persisting, materialised after the
whole parse (the database insert reads each stored slice then). -/
def parseKMLPathsG (doc : Document) : List (String × List String) :=
  let (m, recs) := parseKMLRecordsG doc
  recs.map fun r => (r.Name, m.read r.FolderPath)

/-! ## Import Writer (`importPlacemarks`, part_000 lines 494–550)

The database is modelled as the three tables the importer touches; each
`INSERT` consumes the head of a stream of failure flags (`true` = the insert
errors), modelling arbitrary single-statement failures.  The transaction is
modelled by tracking the working state separately from the original: every
early `return` hands back the original state (`defer tx.Rollback`), the final
`tx.Commit` publishes the working state.  The style-existence `SELECT` is
modelled as succeeding (its error is swallowed by line 511 anyway). -/

/-- A row of the `placemarks` table as the importer writes it (line 524–529);
`mediaLinks` is `none` when the Go code passes a nil slice (lines 516–519). -/
structure DbPlacemarkRow where
  id : Nat
  name : String
  description : String
  styleId : Option String
  folderPath : List String
  geometryType : String
  geomWKT : String
  coordinatesRaw : String
  mediaLinks : Option (List String)
deriving DecidableEq

/-- The visible database state: `styles` (ids only), `placemarks`,
`placemark_data` rows `(placemark_id, key, value)`, and the `SERIAL` id
counter. -/
structure DBState where
  styles : List String
  placemarks : List DbPlacemarkRow
  placemarkData : List (Nat × String × String)
  nextId : Nat
deriving DecidableEq

/-- The row built for one record inside the loop (lines 505–529), including
the style resolution of lines 506–514: a non-empty style id is kept only when
a style with that id exists, otherwise the reference is null. -/
def mkPlacemarkRow (styles : List String) (id : Nat) (pm : PlacemarkRecord) :
    DbPlacemarkRow :=
  { id := id
    name := pm.Name
    description := pm.Description
    styleId := if pm.StyleID ≠ "" ∧ pm.StyleID ∈ styles then some pm.StyleID else none
    folderPath := pm.FolderPath
    geometryType := pm.GeometryType
    geomWKT := pm.GeomWKT
    coordinatesRaw := pm.CoordinatesRaw
    mediaLinks := if pm.MediaLinks.length > 0 then some pm.MediaLinks else none }

/-- The extended-data insert loop (lines 537–546): one insert per pair, each
consuming one failure flag; `none` models the early error return. -/
def insertDataLoop (failures : List Bool) (w : DBState) (id : Nat) :
    List (String × String) → Option (List Bool × DBState)
  | [] => some (failures, w)
  | (k, v) :: rest =>
    if failures.headD false then none
    else
      insertDataLoop failures.tail
        { w with placemarkData := w.placemarkData ++ [(id, k, v)] } id rest

/-- The `for _, pm := range placemarks` loop of `importPlacemarks` inside the
transaction.  `dbOrig` is the state every rollback path returns to; `w` is
the uncommitted working state.  Reaching the end of the list is `tx.Commit`. -/
def importLoop (failures : List Bool) (dbOrig w : DBState) :
    List PlacemarkRecord → Except String Unit × DBState
  | [] => (.ok (), w)
  | pm :: rest =>
    if failures.headD false then (.error "failed to insert placemark", dbOrig)
    else
      match insertDataLoop failures.tail
          { w with
            placemarks := w.placemarks ++ [mkPlacemarkRow w.styles w.nextId pm]
            nextId := w.nextId + 1 } w.nextId pm.ExtendedData with
      | none => (.error "failed to insert extended data", dbOrig)
      | some (failures₁, w₂) => importLoop failures₁ dbOrig w₂ rest

/-- `importPlacemarks` (lines 494–550): an empty batch returns before the
transaction begins; otherwise the loop runs inside one transaction. -/
def importPlacemarks (failures : List Bool) (db : DBState)
    (placemarks : List PlacemarkRecord) : Except String Unit × DBState :=
  if placemarks.isEmpty then (.ok (), db)
  else importLoop failures db db placemarks

/-- Number of `INSERT` statements a fully successful import of the batch
executes: one per record plus one per extended-data pair. -/
def totalInserts (placemarks : List PlacemarkRecord) : Nat :=
  (placemarks.map fun pm => 1 + pm.ExtendedData.length).sum

/-- The rows a fully successful import appends, in order, ids assigned from
`startId`. -/
def importedRows (styles : List String) (startId : Nat) :
    List PlacemarkRecord → List DbPlacemarkRow
  | [] => []
  | pm :: rest => mkPlacemarkRow styles startId pm :: importedRows styles (startId + 1) rest

/-- The `placemark_data` rows a fully successful import appends, in order. -/
def importedData (startId : Nat) : List PlacemarkRecord → List (Nat × String × String)
  | [] => []
  | pm :: rest =>
    pm.ExtendedData.map (fun kv => (startId, kv.1, kv.2)) ++ importedData (startId + 1) rest

/-! ## Timeline Deriver (`internal/store/placemark.go`)

`GetTimeline` (lines 162–214) runs
`SELECT ... WHERE name ~ '^\d{1,2}/\d{1,2}/\d{4}' ORDER BY name` and builds
one event per row.  The query is modelled as filter + lexicographic sort over
the placemark rows; the `geometry` column (GeoJSON text produced by
`ST_AsGeoJSON`) is modelled as a parsed JSON tree, eliding the concrete
syntax handled by `encoding/json`. -/

/-- A JSON value (the parse of the GeoJSON text stored in the row). -/
inductive Json where
  | null
  | bool (b : Bool)
  | num (q : ℚ)
  | str (s : String)
  | arr (elems : List Json)
  | obj (fields : List (String × Json))

/-- The columns `GetTimeline` selects from one `placemarks` row. -/
structure TimelineRow where
  id : Nat
  name : String
  description : String
  geometryType : String
  geometry : Json
  mediaLinks : List String
  folderPath : List String

/-- A parsed `time.Time`, to the resolution these layouts produce. -/
structure GoTime where
  year : Nat
  month : Nat
  day : Nat
  hour : Nat
  minute : Nat
  second : Nat
deriving DecidableEq

/-- The store's `Point` struct (placemark.go lines 41–44). -/
structure StorePoint where
  lat : ℚ
  lon : ℚ
deriving DecidableEq

/-- A derived timeline event (placemark.go lines 31–39). -/
structure TimelineEvent where
  timestamp : Option GoTime
  name : String
  description : String
  location : Option StorePoint
  mediaLinks : List String
  placemarkId : Nat
  folderPath : List String
deriving DecidableEq

/-! ### The date-shape filter `name ~ '^\d{1,2}/\d{1,2}/\d{4}'` -/

/-- Match `\d{1,2}/` at the front: one digit, optionally a second digit, then
a slash (two digits commit to the slash — a one-digit retry would face a
digit where the slash must be). -/
def matchNumSlash : List Char → Option (List Char)
  | a :: b :: c :: rest =>
    if a.isDigit then
      if b.isDigit then (if c = '/' then some rest else none)
      else if b = '/' then some (c :: rest) else none
    else none
  | [a, b] => if a.isDigit ∧ b = '/' then some [] else none
  | _ => none

/-- `name ~ '^\d{1,2}/\d{1,2}/\d{4}'` (placemark.go line 167). -/
def nameDateFilter (s : String) : Bool :=
  match matchNumSlash s.data with
  | none => false
  | some r₁ =>
    match matchNumSlash r₁ with
    | none => false
    | some (a :: b :: c :: d :: _) => a.isDigit ∧ b.isDigit ∧ c.isDigit ∧ d.isDigit
    | some _ => false

/-! ### `parseTimestampFromName` (placemark.go lines 287–306)

Each layout is a Go reference-time pattern; `time.Parse` is modelled chunk by
chunk with Go's rules: variable-width numbers take one or two digits,
fixed-width numbers take exactly two, a space in the layout requires a space
in the value (unless the value is exhausted) and then both sides drop all
their consecutive spaces, `PM`/`AM` need two characters, the whole value must
be consumed, and month/day are range-checked against the calendar. -/

/-- One layout element as `time.Parse` chunks the reference time. -/
inductive LChunk where
  | lit (c : Char)
  | spaces
  | numMonth
  | zeroMonth
  | numDay
  | zeroDay
  | longYear
  | numHour12
  | zeroHour12
  | zeroMinute
  | zeroSecond
  | pmMarker
deriving DecidableEq

/-- Intermediate parse state of `time.Parse`. -/
structure LState where
  year : Nat
  month : Nat
  day : Nat
  hour : Nat
  minute : Nat
  second : Nat
  pmSet : Bool
  amSet : Bool
deriving DecidableEq

def initialLState : LState :=
  { year := 0, month := 1, day := 1, hour := 0, minute := 0, second := 0,
    pmSet := false, amSet := false }

/-- Go's `getnum`: one or two digits when `fixed` is false, exactly two when
`fixed` is true. -/
def getnum (cs : List Char) (fixed : Bool) : Option (Nat × List Char) :=
  match cs with
  | a :: b :: rest =>
    if a.isDigit then
      if b.isDigit then some ((a.toNat - '0'.toNat) * 10 + (b.toNat - '0'.toNat), rest)
      else if fixed then none
      else some (a.toNat - '0'.toNat, b :: rest)
    else none
  | [a] => if a.isDigit ∧ ¬ fixed then some (a.toNat - '0'.toNat, []) else none
  | [] => none

/-- Consume one layout chunk from the value. -/
def stepChunk (ch : LChunk) (cs : List Char) (st : LState) :
    Option (List Char × LState) :=
  match ch with
  | .lit c => match cs with
    | c₀ :: rest => if c₀ = c then some (rest, st) else none
    | [] => none
  | .spaces => match cs with
    | [] => some ([], st)
    | c₀ :: rest =>
      if c₀ = ' ' then some (rest.dropWhile (fun c => c = ' '), st) else none
  | .numMonth => (getnum cs false).map fun (n, rest) => (rest, { st with month := n })
  | .zeroMonth => (getnum cs true).map fun (n, rest) => (rest, { st with month := n })
  | .numDay => (getnum cs false).map fun (n, rest) => (rest, { st with day := n })
  | .zeroDay => (getnum cs true).map fun (n, rest) => (rest, { st with day := n })
  | .longYear => match cs with
    | a :: b :: c :: d :: rest =>
      if a.isDigit ∧ b.isDigit ∧ c.isDigit ∧ d.isDigit then
        some (rest, { st with year :=
          ((a.toNat - '0'.toNat) * 10 + (b.toNat - '0'.toNat)) * 100 +
            (c.toNat - '0'.toNat) * 10 + (d.toNat - '0'.toNat) })
      else none
    | _ => none
  | .numHour12 => (getnum cs false).bind fun (n, rest) =>
      if n ≤ 12 then some (rest, { st with hour := n }) else none
  | .zeroHour12 => (getnum cs true).bind fun (n, rest) =>
      if n ≤ 12 then some (rest, { st with hour := n }) else none
  | .zeroMinute => (getnum cs true).bind fun (n, rest) =>
      if n < 60 then some (rest, { st with minute := n }) else none
  | .zeroSecond => (getnum cs true).bind fun (n, rest) =>
      if n < 60 then some (rest, { st with second := n }) else none
  | .pmMarker => match cs with
    | 'P' :: 'M' :: rest => some (rest, { st with pmSet := true })
    | 'A' :: 'M' :: rest => some (rest, { st with amSet := true })
    | _ => none

/-- Run all chunks; the value must be exactly consumed (`time.Parse` rejects
extra text). -/
def runChunks : List LChunk → List Char → LState → Option LState
  | [], cs, st => if cs.isEmpty then some st else none
  | ch :: rest, cs, st =>
    match stepChunk ch cs st with
    | none => none
    | some (cs₁, st₁) => runChunks rest cs₁ st₁

/-- `isLeap` as the Go time package computes it. -/
def goIsLeap (y : Nat) : Bool :=
  y % 4 = 0 ∧ (y % 100 ≠ 0 ∨ y % 400 = 0)

/-- Days in a month (`daysIn`). -/
def goDaysIn (month year : Nat) : Nat :=
  if month = 2 then (if goIsLeap year then 29 else 28)
  else if month = 4 ∨ month = 6 ∨ month = 9 ∨ month = 11 then 30
  else 31

/-- `time.Parse` for one of the four layouts below: chunk consumption, then
the month/day range validation and the PM/AM hour adjustment. -/
def goTimeParse (chunks : List LChunk) (value : List Char) : Option GoTime :=
  match runChunks chunks value initialLState with
  | none => none
  | some st =>
    if st.month < 1 ∨ 12 < st.month then none
    else if st.day < 1 ∨ goDaysIn st.month st.year < st.day then none
    else
      let hour :=
        if st.pmSet ∧ st.hour < 12 then st.hour + 12
        else if st.amSet ∧ st.hour = 12 then 0
        else st.hour
      some { year := st.year, month := st.month, day := st.day,
             hour := hour, minute := st.minute, second := st.second }

/-- The layout chunking shared by `"1/2/2006  3:04:05 PM"` and
`"1/2/2006 3:04:05 PM"` (a run of layout spaces is one chunk). -/
def chunksNumeric : List LChunk :=
  [.numMonth, .lit '/', .numDay, .lit '/', .longYear, .spaces,
   .numHour12, .lit ':', .zeroMinute, .lit ':', .zeroSecond, .spaces, .pmMarker]

/-- The layout chunking shared by `"01/02/2006  03:04:05 PM"` and
`"01/02/2006 03:04:05 PM"`. -/
def chunksZeroPadded : List LChunk :=
  [.zeroMonth, .lit '/', .zeroDay, .lit '/', .longYear, .spaces,
   .zeroHour12, .lit ':', .zeroMinute, .lit ':', .zeroSecond, .spaces, .pmMarker]

/-- The ordered layout list of `parseTimestampFromName` (lines 288–293), each
with its chunking.  The layout string lengths (20, 23, 19, 22) drive the
name-prefix truncation. -/
def timelineLayouts : List (String × List LChunk) :=
  [("1/2/2006  3:04:05 PM", chunksNumeric),
   ("01/02/2006  03:04:05 PM", chunksZeroPadded),
   ("1/2/2006 3:04:05 PM", chunksNumeric),
   ("01/02/2006 03:04:05 PM", chunksZeroPadded)]

/-- `parseTimestampFromName` (lines 287–306): skip layouts longer than the
name, try `time.Parse(layout, name[:len(layout)])` in order, first success
wins. -/
def parseTimestampFromName (name : String) : Option GoTime :=
  go timelineLayouts
where
  go : List (String × List LChunk) → Option GoTime
    | [] => none
    | (layout, chunks) :: rest =>
      if name.length < layout.length then go rest
      else
        match goTimeParse chunks (name.take layout.length).data with
        | some t => some t
        | none => go rest

/-! ### `extractPointFromGeoJSON` (lines 308–325) -/

/-- `json.Unmarshal` of a JSON array into `[]float64`: every element must be
a number. -/
def jsonNums : List Json → Option (List ℚ)
  | [] => some []
  | .num q :: rest => (jsonNums rest).map fun qs => q :: qs
  | _ => none

/-- `extractPointFromGeoJSON`: unmarshal into `struct{Coordinates []float64}`
(an absent `coordinates` field leaves the slice nil; a non-object document or
ill-typed field is an unmarshal error), require at least two coordinates, and
read `(lon, lat)` from the first two. -/
def extractPointFromGeoJSON (geojson : Json) : Option StorePoint :=
  match geojson with
  | .obj fields =>
    match fields.lookup "coordinates" with
    | none => none
    | some (.arr elems) =>
      match jsonNums elems with
      | none => none
      | some qs =>
        if qs.length < 2 then none
        else some { lon := qs.getD 0 0, lat := qs.getD 1 0 }
    | some _ => none
  | _ => none

/-! ### `GetTimeline` (lines 162–214) -/

/-- The event built from one row of the query result (lines 194–209). -/
def mkTimelineEvent (row : TimelineRow) : TimelineEvent :=
  { placemarkId := row.id
    name := row.name
    description := row.description
    mediaLinks := row.mediaLinks
    folderPath := row.folderPath
    timestamp := parseTimestampFromName row.name
    location :=
      if row.geometryType = "Point" then extractPointFromGeoJSON row.geometry
      else none }

/-- Lexicographic comparison of character lists (the text ordering `ORDER BY
name` applies, for ASCII data). -/
def charListLe : List Char → List Char → Bool
  | [], _ => true
  | _ :: _, [] => false
  | a :: as, b :: bs =>
    if a < b then true else if a = b then charListLe as bs else false

/-- Lexicographic string order. -/
def strLe (a b : String) : Prop := charListLe a.data b.data = true

instance : DecidableRel strLe := fun a b =>
  instDecidableEqBool (charListLe a.data b.data) true

/-- Row order produced by `ORDER BY name`. -/
def rowNameLe (a b : TimelineRow) : Prop := strLe a.name b.name

instance : DecidableRel rowNameLe := fun a b =>
  inferInstanceAs (Decidable (strLe a.name b.name))

/-- `GetTimeline`: the SQL filter and sort, then one event per row. -/
def GetTimeline (db : List TimelineRow) : List TimelineEvent :=
  (((db.filter fun r => nameDateFilter r.name).insertionSort rowNameLe).map
    mkTimelineEvent)

/-! ## Bounding-box handler (`internal/api/handlers.go`) -/

/-- `r.URL.Query().Get(key)`: first value of the parameter, or `""`. -/
def queryGet (params : List (String × String)) (key : String) : String :=
  (params.lookup key).getD ""

/-- `getFloatParam` (handlers.go lines 147–157): missing or unparsable values
fall back to the default. -/
def getFloatParam (params : List (String × String)) (key : String)
    (defaultVal : ℚ) : ℚ :=
  if queryGet params key = "" then defaultVal
  else
    match parseFloatFull (queryGet params key) with
    | none => defaultVal
    | some v => v

/-- The bounding box passed to the store (store.BoundingBox). -/
structure BoundingBox where
  minLon : ℚ
  minLat : ℚ
  maxLon : ℚ
  maxLat : ℚ
deriving DecidableEq

/-- `GetPlacemarksInBBox` (handlers.go lines 80–110) up to the store call:
`.error` is the 400 response sent before any store query, `.ok` carries the
box the store is queried with. -/
def getPlacemarksInBBox (params : List (String × String)) :
    Except String BoundingBox :=
  let minLon := getFloatParam params "min_lon" 0
  let minLat := getFloatParam params "min_lat" 0
  let maxLon := getFloatParam params "max_lon" 0
  let maxLat := getFloatParam params "max_lat" 0
  if minLon = 0 ∨ minLat = 0 ∨ maxLon = 0 ∨ maxLat = 0 then
    .error "missing bbox parameters"
  else
    .ok { minLon := minLon, minLat := minLat, maxLon := maxLon, maxLat := maxLat }

/-! ## Claim-side definitions and concrete fixtures -/

/-- The claim-side reading of one coordinate token: kept exactly when it
comma-splits into at least two components whose first two components both
scan as numbers. -/
def validTuple (part : String) : Option Coord :=
  match splitComma part with
  | v0 :: v1 :: _ =>
    match sscanfFloat v0, sscanfFloat v1 with
    | some lon, some lat => some (lon, lat)
    | _, _ => none
  | _ => none

/-- First lookup in a string association list. -/
def assocLookup (k : String) : List (String × String) → Option String
  | [] => none
  | (k₀, v₀) :: rest => if k₀ = k then some v₀ else assocLookup k rest

/-- `orOpt a b`: `a` when present, else `b`. -/
def orOpt (a b : Option String) : Option String :=
  match a with
  | some v => some v
  | none => b

/-- The value of the last extended-attribute entry named `k` (the binding a
last-wins map ends up with). -/
def lastValueOf (k : String) : List DataEntry → Option String
  | [] => none
  | d :: rest => orOpt (lastValueOf k rest) (if d.name = k then some d.value else none)

instance : IsTotal TimelineRow rowNameLe := by
  constructor
  intro a b
  show charListLe a.name.data b.name.data = true ∨
    charListLe b.name.data a.name.data = true
  generalize a.name.data = xs
  generalize b.name.data = ys
  induction xs generalizing ys with
  | nil => exact Or.inl rfl
  | cons x xst ih =>
    cases ys with
    | nil => exact Or.inr rfl
    | cons y yst =>
      rcases lt_trichotomy x y with hlt | heq | hgt
      · exact Or.inl (by rw [charListLe, if_pos hlt])
      · subst heq
        rcases ih yst with h | h
        · exact Or.inl (by rw [charListLe, if_neg (lt_irrefl x), if_pos rfl, h])
        · exact Or.inr (by rw [charListLe, if_neg (lt_irrefl x), if_pos rfl, h])
      · exact Or.inr (by rw [charListLe, if_pos hgt])

instance : IsTrans TimelineRow rowNameLe := by
  constructor
  have aux : ∀ xs ys zs : List Char, charListLe xs ys = true →
      charListLe ys zs = true → charListLe xs zs = true := by
    intro xs
    induction xs with
    | nil => intro ys zs _ _; rfl
    | cons x xst ih =>
      intro ys zs hxy hyz
      cases ys with
      | nil => exact absurd hxy (by rw [charListLe]; simp)
      | cons y yst =>
        cases zs with
        | nil => exact absurd hyz (by rw [charListLe]; simp)
        | cons z zst =>
          have hxyd : x < y ∨ (x = y ∧ charListLe xst yst = true) := by
            by_cases h1 : x < y
            · exact Or.inl h1
            · by_cases h2 : x = y
              · rw [charListLe, if_neg h1, if_pos h2] at hxy
                exact Or.inr ⟨h2, hxy⟩
              · rw [charListLe, if_neg h1, if_neg h2] at hxy
                cases hxy
          have hyzd : y < z ∨ (y = z ∧ charListLe yst zst = true) := by
            by_cases h1 : y < z
            · exact Or.inl h1
            · by_cases h2 : y = z
              · rw [charListLe, if_neg h1, if_pos h2] at hyz
                exact Or.inr ⟨h2, hyz⟩
              · rw [charListLe, if_neg h1, if_neg h2] at hyz
                cases hyz
          rcases hxyd with h1 | ⟨he1, ht1⟩
          · rcases hyzd with h2 | ⟨he2, ht2⟩
            · rw [charListLe, if_pos (lt_trans h1 h2)]
            · subst he2
              rw [charListLe, if_pos h1]
          · subst he1
            rcases hyzd with h2 | ⟨he2, ht2⟩
            · rw [charListLe, if_pos h2]
            · subst he2
              rw [charListLe, if_neg (lt_irrefl x), if_pos rfl]
              exact ih yst zst ht1 ht2
  intro a b c hab hbc
  exact aux a.name.data b.name.data c.name.data hab hbc

/-- Fixture: a Point placemark with duplicate generic keys and duplicate
media-link entries. -/
def pmW3 : Placemark :=
  { name := "n", description := "", styleUrl := "#s1",
    point := some "0,0", lineString := none, polygon := none,
    extendedData := some [{ name := "a", value := "1" }, { name := "a", value := "2" },
      { name := "gx_media_links", value := "u1" },
      { name := "gx_media_links", value := "u2" }] }

/-- Fixture: the record `processPlacemark` produces for `pmW3`. -/
def recW3 : PlacemarkRecord :=
  { Name := "n", Description := "", StyleID := "s1", FolderPath := [],
    GeometryType := "Point", GeomWKT := "POINT(0.000000 0.000000)",
    CoordinatesRaw := "0,0", MediaLinks := ["u1", "u2"],
    ExtendedData := [("a", "2")] }

/-- Fixture: a placemark carrying no geometry block at all. -/
def pmW6 : Placemark :=
  { name := "n", description := "", styleUrl := "", point := none,
    lineString := none, polygon := none, extendedData := none }

/-- Fixture: a top-level Point placemark. -/
def pmTop : Placemark :=
  { name := "t", description := "", styleUrl := "", point := some "1,2",
    lineString := none, polygon := none, extendedData := none }

/-- Fixture: a Point placemark living in folder `F`. -/
def pmInF : Placemark :=
  { name := "u", description := "", styleUrl := "", point := some "3,4",
    lineString := none, polygon := none, extendedData := none }

/-- Fixture: a document with one top-level Point placemark and one folder. -/
def docW6 : Document :=
  { styleIds := [], placemarks := [pmTop],
    folders := .cons (.mk "F" [pmInF] .nil) .nil }

/-- Fixture: the Point placemark sitting in folder `D` of `docAlias`. -/
def pmInD : Placemark :=
  { name := "p", description := "", styleUrl := "", point := some "0,0",
    lineString := none, polygon := none, extendedData := none }

/-- Fixture: folders `A ▸ B ▸ C ▸ {D, E}` with one placemark in `D`.  The
path `[A, B, C]` is backed by a capacity-4 array, so the appends for the
sibling folders `D` and `E` share its fourth slot. -/
def docAlias : Document :=
  { styleIds := [], placemarks := [],
    folders := .cons (.mk "A" [] (.cons (.mk "B" [] (.cons (.mk "C" []
      (.cons (.mk "D" [pmInD] .nil) (.cons (.mk "E" [] .nil) .nil))) .nil)) .nil)) .nil }

/-- Fixture: the stored row of the §8 timeline example feature — name
`10/1/2017 09:41:56 PM - Event` with a Point geometry. -/
def rowC4 : TimelineRow :=
  { id := 1, name := "10/1/2017 09:41:56 PM - Event", description := "d",
    geometryType := "Point",
    geometry := .obj [("type", .str "Point"),
      ("coordinates", .arr [.num (mkRat 5 2), .num (mkRat 3 2)])],
    mediaLinks := [], folderPath := [] }

/-- Fixture: the event `GetTimeline` derives from `rowC4`. -/
def eventC4 : TimelineEvent :=
  { timestamp := none, name := "10/1/2017 09:41:56 PM - Event",
    description := "d", location := some { lat := mkRat 3 2, lon := mkRat 5 2 },
    mediaLinks := [], placemarkId := 1, folderPath := [] }

/-- Fixture: a row whose name matches the date-shape filter but defeats every
timestamp layout. -/
def rowW8 : TimelineRow :=
  { id := 7, name := "9/9/2017 meeting", description := "",
    geometryType := "LineString", geometry := .null,
    mediaLinks := [], folderPath := [] }

/-- Fixture: a normalized record referencing the imported style `s1`. -/
def pmRecW1 : PlacemarkRecord :=
  { Name := "a", Description := "", StyleID := "s1", FolderPath := [],
    GeometryType := "Point", GeomWKT := "POINT(1.000000 2.000000)",
    CoordinatesRaw := "1,2", MediaLinks := [], ExtendedData := [("k", "v")] }

/-- Fixture: a normalized record referencing a style that was never
imported. -/
def pmRecW2 : PlacemarkRecord :=
  { Name := "b", Description := "", StyleID := "ghost", FolderPath := [],
    GeometryType := "Point", GeomWKT := "POINT(3.000000 4.000000)",
    CoordinatesRaw := "3,4", MediaLinks := [], ExtendedData := [] }

/-- Fixture: a database holding exactly the style `s1`. -/
def dbW1 : DBState :=
  { styles := ["s1"], placemarks := [], placemarkData := [], nextId := 1 }

/-- Fixture: a polygon whose outer ring text is already closed and has only
two distinct points. -/
def polyC2 : KmlPolygon :=
  { outerBoundary := "0,0 1,1 0,0", innerBoundaries := [] }

/-- Fixture: a polygon with an open outer ring, one too-short hole and one
valid open hole. -/
def polyW2 : KmlPolygon :=
  { outerBoundary := "0,0 0,1 1,1",
    innerBoundaries := ["0,0 1,1", "0,0 0.2,0 0.2,0.2 0,0.2"] }

/-- Fixture: the rings `polygonRings` produces for `polyW2`: the closed
outer ring and the one retained (closed) hole. -/
def ringsW2 : List (List Coord) :=
  [[(0, 0), (0, 1), (1, 1), (0, 0)],
   [(0, 0), (mkRat 1 5, 0), (mkRat 1 5, mkRat 1 5), (0, mkRat 1 5), (0, 0)]]

/-- Fixture: a Point placemark whose extended data repeats the generic key
`a`. -/
def pmC3 : Placemark :=
  { name := "n", description := "", styleUrl := "",
    point := some "0,0", lineString := none, polygon := none,
    extendedData := some [{ name := "a", value := "1" },
      { name := "a", value := "2" }] }

theorem parseCoordsLoop_eq_filterMap (parts : List String) :
    parseCoordsLoop parts = parts.filterMap validTuple := by
  induction parts with
  | nil => rfl
  | cons p rest ih =>
    rw [List.filterMap_cons]
    show (match splitComma p with
      | v0 :: v1 :: _ =>
        match sscanfFloat v0, sscanfFloat v1 with
        | some lon, some lat => (lon, lat) :: parseCoordsLoop rest
        | _, _ => parseCoordsLoop rest
      | _ => parseCoordsLoop rest) = _
    unfold validTuple
    cases splitComma p with
    | nil => simpa using ih
    | cons v0 tl =>
      cases tl with
      | nil => simpa using ih
      | cons v1 _ =>
        cases h0 : sscanfFloat v0 <;> cases h1 : sscanfFloat v1 <;>
          simp only [h0, h1, ih] <;> rfl

theorem closeRing_head_eq_getLast (r : List Coord) (h : r ≠ []) :
    (closeRing r).head? = (closeRing r).getLast? := by
  unfold closeRing
  by_cases hc : r.head? = r.getLast?
  · simp [hc]
  · rw [if_neg hc, List.getLast?_concat]
    cases r with
    | nil => simp at h
    | cons a tl => simp

theorem closeRing_length_ge (r : List Coord) : r.length ≤ (closeRing r).length := by
  unfold closeRing
  by_cases hc : r.head? = r.getLast? <;> simp [hc]

theorem assocLookup_nil (k : String) : assocLookup k [] = none := rfl

theorem assocLookup_cons (k k₀ v₀ : String) (l : List (String × String)) :
    assocLookup k ((k₀, v₀) :: l) =
      if k₀ = k then some v₀ else assocLookup k l := rfl

theorem assocLookup_goMapInsert (l : List (String × String)) (k v k' : String) :
    assocLookup k' (goMapInsert l k v) =
      if k' = k then some v else assocLookup k' l := by
  induction l with
  | nil =>
    show assocLookup k' [(k, v)] = _
    rw [assocLookup_cons, assocLookup_nil]
    by_cases h : k' = k
    · rw [if_pos h.symm, if_pos h]
    · rw [if_neg (fun hh => h hh.symm), if_neg h]
  | cons kv rest ih =>
    obtain ⟨k₀, v₀⟩ := kv
    show assocLookup k'
        (if k₀ = k then (k₀, v) :: rest else (k₀, v₀) :: goMapInsert rest k v) = _
    by_cases h0 : k₀ = k
    · subst h0
      rw [if_pos rfl, assocLookup_cons, assocLookup_cons]
      by_cases h : k₀ = k'
      · simp only [if_pos h, if_pos h.symm]
      · simp only [if_neg h, if_neg (fun hh : k' = k₀ => h hh.symm)]
    · rw [if_neg h0, assocLookup_cons, ih, assocLookup_cons]
      by_cases h : k₀ = k'
      · subst h
        simp only [if_pos rfl, if_neg (fun hh : k₀ = k => h0 hh)]
      · simp only [if_neg h]

theorem partition_mediaLinks (ds : List DataEntry)
    (acc : List (String × String) × List String) :
    (ds.foldl extDataStep acc).2 =
      acc.2 ++ (ds.filter fun d => d.name = "gx_media_links").map (·.value) := by
  induction ds generalizing acc with
  | nil => simp
  | cons d rest ih =>
    by_cases h : d.name = "gx_media_links" <;>
      simp [extDataStep, h, ih, List.filter_cons]

theorem orOpt_assoc (a b c : Option String) :
    orOpt (orOpt a b) c = orOpt a (orOpt b c) := by
  cases a <;> rfl

theorem assocLookup_extDataStep (acc : List (String × String) × List String)
    (d : DataEntry) (k : String) (hk : k ≠ "gx_media_links") :
    assocLookup k (extDataStep acc d).1 =
      orOpt (if d.name = k then some d.value else none) (assocLookup k acc.1) := by
  unfold extDataStep
  by_cases h : d.name = "gx_media_links"
  · rw [if_pos h, if_neg (fun hdk : d.name = k => hk (hdk ▸ h))]
    rfl
  · rw [if_neg h]
    show assocLookup k (goMapInsert acc.1 d.name d.value) = _
    rw [assocLookup_goMapInsert]
    by_cases hdk : d.name = k
    · rw [if_pos hdk, if_pos hdk.symm]
      rfl
    · rw [if_neg hdk, if_neg (fun hh => hdk hh.symm)]
      rfl

theorem partition_generic_lookup (ds : List DataEntry)
    (acc : List (String × String) × List String) (k : String)
    (hk : k ≠ "gx_media_links") :
    assocLookup k (ds.foldl extDataStep acc).1 =
      orOpt (lastValueOf k ds) (assocLookup k acc.1) := by
  induction ds generalizing acc with
  | nil => rfl
  | cons d rest ih =>
    rw [List.foldl_cons, ih, lastValueOf, orOpt_assoc,
      assocLookup_extDataStep acc d k hk]

theorem partition_marker_absent (ds : List DataEntry)
    (acc : List (String × String) × List String)
    (hacc : assocLookup "gx_media_links" acc.1 = none) :
    assocLookup "gx_media_links" (ds.foldl extDataStep acc).1 = none := by
  induction ds generalizing acc with
  | nil => exact hacc
  | cons d rest ih =>
    rw [List.foldl_cons]
    refine ih _ ?_
    unfold extDataStep
    by_cases h : d.name = "gx_media_links"
    · rw [if_pos h]
      exact hacc
    · rw [if_neg h]
      show assocLookup "gx_media_links" (goMapInsert acc.1 d.name d.value) = none
      rw [assocLookup_goMapInsert, if_neg (fun hh => h hh.symm)]
      exact hacc

mutual
theorem processFolderPlacemarks_eq_preorder (f : Folder) (p : List String) :
    processFolderPlacemarks f p =
      (preorderFolder f p).filterMap fun q => processPlacemark q.1 q.2 := by
  match f with
  | .mk name pms subs =>
    rw [processFolderPlacemarks, preorderFolder, List.filterMap_append,
      List.filterMap_map, processFolderList_eq_preorder subs]
    rfl

theorem processFolderList_eq_preorder (fs : FolderList) (p : List String) :
    processFolderList fs p =
      (preorderFolderList fs p).filterMap fun q => processPlacemark q.1 q.2 := by
  match fs with
  | .nil => rfl
  | .cons f rest =>
    rw [processFolderList, preorderFolderList, List.filterMap_append,
      processFolderPlacemarks_eq_preorder f, processFolderList_eq_preorder rest]
end

theorem parseKMLRecords_eq_preorder (doc : Document) :
    parseKMLRecords doc =
      (preorderDocument doc).filterMap fun q => processPlacemark q.1 q.2 := by
  rw [parseKMLRecords, preorderDocument, List.filterMap_append,
    List.filterMap_map, processFolderList_eq_preorder]
  rfl

/-! ### Import loop characterization -/

theorem insertDataLoop_noFail (kvs : List (String × String)) (w : DBState) (id : Nat) :
    insertDataLoop [] w id kvs =
      some ([], { w with
        placemarkData := w.placemarkData ++ kvs.map fun kv => (id, kv.1, kv.2) }) := by
  induction kvs generalizing w with
  | nil => simp [insertDataLoop]
  | cons kv rest ih =>
    obtain ⟨k, v⟩ := kv
    rw [insertDataLoop, List.headD_nil, if_neg Bool.false_ne_true, List.tail_nil, ih]
    simp [List.append_assoc]

theorem importLoop_noFail (pms : List PlacemarkRecord) (dbOrig w : DBState) :
    importLoop [] dbOrig w pms =
      (.ok (), { w with
        placemarks := w.placemarks ++ importedRows w.styles w.nextId pms
        placemarkData := w.placemarkData ++ importedData w.nextId pms
        nextId := w.nextId + pms.length }) := by
  induction pms generalizing w with
  | nil => simp [importLoop, importedRows, importedData]
  | cons pm rest ih =>
    rw [importLoop, List.headD_nil, if_neg Bool.false_ne_true, List.tail_nil,
      insertDataLoop_noFail]
    dsimp only
    rw [ih]
    simp only [importedRows, importedData]
    refine congrArg _ ?_
    cases w with
    | mk styles placemarks placemarkData nextId =>
      simp [List.append_assoc]
      omega

theorem importPlacemarks_noFail (db : DBState) (pms : List PlacemarkRecord) :
    importPlacemarks [] db pms =
      (.ok (), { db with
        placemarks := db.placemarks ++ importedRows db.styles db.nextId pms
        placemarkData := db.placemarkData ++ importedData db.nextId pms
        nextId := db.nextId + pms.length }) := by
  rw [importPlacemarks]
  by_cases h : pms.isEmpty
  · rw [if_pos h]
    rw [List.isEmpty_iff] at h
    subst h
    simp [importedRows, importedData]
  · rw [if_neg h, importLoop_noFail]

theorem insertDataLoop_some_noFail (kvs : List (String × String)) (fs : List Bool)
    (w : DBState) (id : Nat) (fs' : List Bool) (w' : DBState)
    (h : insertDataLoop fs w id kvs = some (fs', w')) :
    insertDataLoop [] w id kvs = some ([], w') := by
  induction kvs generalizing fs w with
  | nil =>
    rw [insertDataLoop] at h
    obtain ⟨-, hw⟩ := Prod.mk.injEq .. ▸ (Option.some.injEq .. ▸ h)
    rw [insertDataLoop, hw]
  | cons kv rest ih =>
    obtain ⟨k, v⟩ := kv
    rw [insertDataLoop] at h
    by_cases hf : fs.headD false
    · rw [if_pos hf] at h
      exact absurd h (by simp)
    · rw [if_neg hf] at h
      rw [insertDataLoop, List.headD_nil, if_neg Bool.false_ne_true, List.tail_nil]
      exact ih fs.tail _ h

theorem importLoop_ok_eq_noFail (pms : List PlacemarkRecord) (fs : List Bool)
    (dbOrig w : DBState) (h : (importLoop fs dbOrig w pms).1 = .ok ()) :
    importLoop fs dbOrig w pms = importLoop [] dbOrig w pms := by
  induction pms generalizing fs w with
  | nil => rfl
  | cons pm rest ih =>
    rw [importLoop] at h ⊢
    by_cases hf : fs.headD false
    · rw [if_pos hf] at h
      exact absurd h (by simp)
    · rw [if_neg hf] at h ⊢
      cases hd : insertDataLoop fs.tail
          { w with
            placemarks := w.placemarks ++ [mkPlacemarkRow w.styles w.nextId pm]
            nextId := w.nextId + 1 } w.nextId pm.ExtendedData with
      | none =>
        rw [hd] at h
        exact absurd h (by simp)
      | some p =>
        obtain ⟨fs₁, w₂⟩ := p
        rw [hd] at h
        dsimp only at h
        dsimp only
        conv_rhs => rw [importLoop, List.headD_nil, if_neg Bool.false_ne_true,
          List.tail_nil, insertDataLoop_some_noFail _ _ _ _ _ _ hd]
        exact ih fs₁ w₂ h

theorem importLoop_error_rollback (pms : List PlacemarkRecord) (fs : List Bool)
    (dbOrig w : DBState) (h : (importLoop fs dbOrig w pms).1 ≠ .ok ()) :
    (importLoop fs dbOrig w pms).2 = dbOrig := by
  induction pms generalizing fs w with
  | nil => exact absurd rfl h
  | cons pm rest ih =>
    rw [importLoop] at h ⊢
    by_cases hf : fs.headD false
    · rw [if_pos hf]
    · rw [if_neg hf] at h ⊢
      cases hd : insertDataLoop fs.tail
          { w with
            placemarks := w.placemarks ++ [mkPlacemarkRow w.styles w.nextId pm]
            nextId := w.nextId + 1 } w.nextId pm.ExtendedData with
      | none => rfl
      | some p =>
        obtain ⟨fs₁, w₂⟩ := p
        rw [hd] at h
        exact ih fs₁ w₂ h

theorem totalInserts_cons (pm : PlacemarkRecord) (rest : List PlacemarkRecord) :
    totalInserts (pm :: rest) = 1 + pm.ExtendedData.length + totalInserts rest := by
  simp [totalInserts]

theorem insertDataLoop_ne_none_iff (kvs : List (String × String)) (fs : List Bool)
    (w : DBState) (id : Nat) :
    insertDataLoop fs w id kvs ≠ none ↔ ∀ b ∈ fs.take kvs.length, b = false := by
  induction kvs generalizing fs w with
  | nil => simp [insertDataLoop]
  | cons kv rest ih =>
    obtain ⟨k, v⟩ := kv
    cases fs with
    | nil =>
      rw [insertDataLoop, List.headD_nil, if_neg Bool.false_ne_true, List.tail_nil]
      simp [ih]
    | cons b bs =>
      cases b with
      | true =>
        rw [insertDataLoop]
        simp
      | false =>
        rw [insertDataLoop]
        simp only [List.headD_cons, if_neg Bool.false_ne_true, List.tail_cons,
          List.length_cons, List.take_succ_cons, List.mem_cons, ih]
        constructor
        · intro hr b hb
          rcases hb with hb | hb
          · exact hb
          · exact hr b hb
        · intro hr b hb
          exact hr b (Or.inr hb)

theorem insertDataLoop_some_drop (kvs : List (String × String)) (fs : List Bool)
    (w : DBState) (id : Nat) (fs' : List Bool) (w' : DBState)
    (h : insertDataLoop fs w id kvs = some (fs', w')) :
    fs' = fs.drop kvs.length := by
  induction kvs generalizing fs w with
  | nil =>
    rw [insertDataLoop] at h
    rw [List.length_nil, List.drop_zero]
    exact (show fs = fs' by simpa using congrArg (fun p => p.map Prod.fst) h).symm
  | cons kv rest ih =>
    obtain ⟨k, v⟩ := kv
    by_cases hf : fs.headD false
    · rw [insertDataLoop, if_pos hf] at h
      exact absurd h (by simp)
    · rw [insertDataLoop, if_neg hf] at h
      have hih := ih fs.tail _ h
      rw [hih, List.length_cons]
      cases fs with
      | nil => simp
      | cons b bs => rfl

theorem importLoop_ok_iff (pms : List PlacemarkRecord) (fs : List Bool)
    (dbOrig w : DBState) :
    (importLoop fs dbOrig w pms).1 = .ok () ↔
      ∀ b ∈ fs.take (totalInserts pms), b = false := by
  induction pms generalizing fs w with
  | nil => simp [importLoop, totalInserts]
  | cons pm rest ih =>
    rw [totalInserts_cons]
    cases fs with
    | nil =>
      rw [importLoop, List.headD_nil, if_neg Bool.false_ne_true, List.tail_nil]
      cases hd : insertDataLoop [] { w with
          placemarks := w.placemarks ++ [mkPlacemarkRow w.styles w.nextId pm]
          nextId := w.nextId + 1 } w.nextId pm.ExtendedData with
      | none =>
        exact absurd hd ((insertDataLoop_ne_none_iff _ _ _ _).mpr (by simp))
      | some p =>
        obtain ⟨fs₁, w₂⟩ := p
        have h1 : fs₁ = [] := by
          simpa using insertDataLoop_some_drop _ _ _ _ _ _ hd
        subst h1
        dsimp only
        simp [ih]
    | cons b bs =>
      cases b with
      | true =>
        rw [importLoop, List.headD_cons, if_pos rfl]
        constructor
        · intro hok
          exact absurd hok (by simp)
        · intro hall
          exfalso
          have hmem : true ∈
              List.take (1 + pm.ExtendedData.length + totalInserts rest) (true :: bs) := by
            have harith : 1 + pm.ExtendedData.length + totalInserts rest =
                (pm.ExtendedData.length + totalInserts rest) + 1 := by omega
            rw [harith, List.take_succ_cons]
            exact List.mem_cons_self _ _
          exact absurd (hall true hmem) (by decide)
      | false =>
        rw [importLoop, List.headD_cons, if_neg Bool.false_ne_true, List.tail_cons]
        have harith : 1 + pm.ExtendedData.length + totalInserts rest =
            (pm.ExtendedData.length + totalInserts rest) + 1 := by omega
        rw [harith, List.take_succ_cons]
        cases hd : insertDataLoop bs { w with
            placemarks := w.placemarks ++ [mkPlacemarkRow w.styles w.nextId pm]
            nextId := w.nextId + 1 } w.nextId pm.ExtendedData with
        | none =>
          have hnot : ¬ ∀ x ∈ bs.take pm.ExtendedData.length, x = false :=
            fun hall =>
              ((insertDataLoop_ne_none_iff pm.ExtendedData bs { w with
                  placemarks := w.placemarks ++ [mkPlacemarkRow w.styles w.nextId pm]
                  nextId := w.nextId + 1 } w.nextId).mpr hall) hd
          dsimp only
          constructor
          · intro hok
            exact absurd hok (by simp)
          · intro hall
            exfalso
            refine hnot fun x hx => ?_
            refine hall x (List.mem_cons_of_mem _ ?_)
            refine List.take_subset (pm.ExtendedData.length) _ ?_
            rw [List.take_take,
              min_eq_left (Nat.le_add_right pm.ExtendedData.length (totalInserts rest))]
            exact hx
        | some p =>
          obtain ⟨fs₁, w₂⟩ := p
          have h1 : fs₁ = bs.drop pm.ExtendedData.length :=
            insertDataLoop_some_drop _ _ _ _ _ _ hd
          have hleft : ∀ x ∈ bs.take pm.ExtendedData.length, x = false :=
            (insertDataLoop_ne_none_iff pm.ExtendedData bs { w with
                placemarks := w.placemarks ++ [mkPlacemarkRow w.styles w.nextId pm]
                nextId := w.nextId + 1 } w.nextId).mp (by simp [hd])
          dsimp only
          rw [ih, h1]
          constructor
          · intro hall x hx
            rcases List.mem_cons.mp hx with hx | hx
            · rw [hx]
            · rw [List.take_add] at hx
              rcases List.mem_append.mp hx with hx | hx
              · exact hleft x hx
              · exact hall x hx
          · intro hall x hx
            refine hall x (List.mem_cons_of_mem _ ?_)
            rw [List.take_add]
            exact List.mem_append.mpr (Or.inr hx)

/-! ## Claim theorems -/

/-- C5: for every coordinate text blob, the Coordinate Parser returns exactly
the tuples that split into at least two components whose first two components
both parse as numbers, as `(lon, lat)` pairs in their original relative
order; a malformed tuple anywhere in the blob is skipped without aborting and
without dropping any valid tuple. -/
theorem coordinateParserKeepsExactlyValidTuples (coordsText : String) :
    parseCoordinates coordsText =
      (goFields (goTrim coordsText)).filterMap validTuple := by
  rw [parseCoordinates, parseCoordsLoop_eq_filterMap]

/-- C2 counterexample: the outer ring `0,0 1,1 0,0` is already closed, has
only two distinct points before closing, parses to exactly three coordinates,
and is still emitted — as a three-point ring, contradicting both the
"≥ 4 points post-closure" and the "fewer than 3 distinct points ⇒ rejected"
parts of the claim. -/
theorem closedDegenerateRingEmittedWithThreePoints :
    buildPolygonWKT polyC2 ≠ "" ∧
    polygonRings polyC2 = some [[((0 : ℚ), (0 : ℚ)), (1, 1), (0, 0)]] ∧
    ¬ ∀ rings, polygonRings polyC2 = some rings → ∀ r ∈ rings, 4 ≤ r.length := by
  refine ⟨by decide, by decide, fun h => ?_⟩
  have := h [[((0 : ℚ), (0 : ℚ)), (1, 1), (0, 0)]] (by decide)
    [((0 : ℚ), (0 : ℚ)), (1, 1), (0, 0)] (by decide)
  simp at this

/-- C2 (amended): a polygon is emitted exactly when its outer boundary parses
to at least 3 coordinate pairs (not necessarily distinct); holes parsing to
fewer than 3 pairs are dropped individually, the polygon is kept; the outer
ring and every retained hole are closed (`head = last`) and have at least 3
points post-closure — at least 4 whenever the parsed ring was open, but an
already-closed 3-point ring is kept with 3 points. -/
theorem polygonRingClosureInvariant (p : KmlPolygon) :
    (buildPolygonWKT p ≠ "" ↔ 3 ≤ (parseCoordinates p.outerBoundary).length) ∧
    (∀ rings, polygonRings p = some rings →
      rings.length = 1 + (p.innerBoundaries.filter
        (fun ib => decide (3 ≤ (parseCoordinates ib).length))).length ∧
      ∀ r ∈ rings, r.head? = r.getLast? ∧ 3 ≤ r.length) ∧
    (∀ ring : List Coord, ring ≠ [] → ring.head? ≠ ring.getLast? →
      (closeRing ring).length = ring.length + 1) := by
  refine ⟨?_, ?_, ?_⟩
  · rw [buildPolygonWKT, polygonRings]
    by_cases h : (parseCoordinates p.outerBoundary).length < 3
    · rw [if_pos h]
      simp
      omega
    · rw [if_neg h]
      constructor
      · intro _
        omega
      · intro _
        intro hx
        have hd := congrArg String.data hx
        simp [String.data_append] at hd
  · intro rings hr
    rw [polygonRings] at hr
    by_cases h : (parseCoordinates p.outerBoundary).length < 3
    · rw [if_pos h] at hr
      exact absurd hr (by simp)
    · rw [if_neg h] at hr
      have hrings := (Option.some.injEq .. ▸ hr).symm
      constructor
      · rw [hrings, List.length_cons]
        have : ∀ l : List String,
            (l.filterMap fun ib =>
              if (parseCoordinates ib).length < 3 then none
              else some (closeRing (parseCoordinates ib))).length =
            (l.filter fun ib => decide (3 ≤ (parseCoordinates ib).length)).length := by
          intro l
          induction l with
          | nil => rfl
          | cons ib rest ih =>
            rw [List.filterMap_cons, List.filter_cons]
            by_cases hib : (parseCoordinates ib).length < 3
            · rw [if_pos hib, if_neg (by simpa using hib), ih]
            · rw [if_neg hib, if_pos (by simpa using Nat.le_of_not_lt hib)]
              simp [ih]
        rw [this]
        omega
      · intro r hrmem
        rw [hrings] at hrmem
        rcases List.mem_cons.mp hrmem with hro | hrh
        · subst hro
          have hne : parseCoordinates p.outerBoundary ≠ [] := by
            intro hnil
            rw [hnil] at h
            simp at h
          refine ⟨closeRing_head_eq_getLast _ hne, ?_⟩
          have := closeRing_length_ge (parseCoordinates p.outerBoundary)
          omega
        · obtain ⟨ib, _, hib⟩ := List.mem_filterMap.mp hrh
          by_cases h3 : (parseCoordinates ib).length < 3
          · rw [if_pos h3] at hib
            exact absurd hib (by simp)
          · rw [if_neg h3] at hib
            have hibr := Option.some.injEq .. ▸ hib
            have hne : parseCoordinates ib ≠ [] := by
              intro hnil
              rw [hnil] at h3
              simp at h3
            rw [← hibr]
            refine ⟨closeRing_head_eq_getLast _ hne, ?_⟩
            have := closeRing_length_ge (parseCoordinates ib)
            omega
  · intro ring hne hopen
    rw [closeRing, if_neg hopen, List.length_append, List.length_singleton]

/-- Witness for C2's amended theorem: an open outer ring closes to 4 points,
a 2-point hole is dropped while a valid 4-point open hole is kept and closed
to 5 points. -/
theorem polygonRingClosureInvariant_witness :
    (buildPolygonWKT polyW2 ≠ "" ↔
      3 ≤ (parseCoordinates polyW2.outerBoundary).length) ∧
    (∀ r ∈ ringsW2, r.head? = r.getLast? ∧ 3 ≤ r.length) ∧
    ringsW2.length = 1 + (polyW2.innerBoundaries.filter
      (fun ib => decide (3 ≤ (parseCoordinates ib).length))).length ∧
    (closeRing [((0 : ℚ), (0 : ℚ)), (0, 1), (1, 1)]).length = 3 + 1 := by
  refine ⟨(polygonRingClosureInvariant polyW2).1, ?_, ?_, ?_⟩
  · exact ((polygonRingClosureInvariant polyW2).2.1 ringsW2 (by decide)).2
  · exact ((polygonRingClosureInvariant polyW2).2.1 ringsW2 (by decide)).1
  · exact (polygonRingClosureInvariant polyW2).2.2
      [((0 : ℚ), (0 : ℚ)), (0, 1), (1, 1)] (by decide) (by decide)

/-- C3 counterexample: two generic extended-attribute entries sharing the key
`a` collapse to a single (last-wins) binding in the generic key/value output,
so duplicate generic keys are not preserved. -/
theorem duplicateGenericKeysCollapse :
    (processPlacemark pmC3 []).map (fun r => r.ExtendedData) = some [("a", "2")] ∧
    ((pmC3.extendedData.getD []).filter
      (fun d => d.name ≠ "gx_media_links")).length = 2 := by
  constructor
  · decide
  · decide

/-- C3 (amended): for every normalized feature, entries keyed by the reserved
marker `gx_media_links` go only to the media-link list — in order, duplicates
preserved — and never into the generic key/value output; the other entries
populate a last-wins key → value map: looking up any non-marker key yields
the value of its last occurrence, duplicate generic keys being collapsed
rather than preserved. -/
theorem extendedAttributePartition (pm : Placemark) (path : List String)
    (rec : PlacemarkRecord) (h : processPlacemark pm path = some rec) :
    rec.MediaLinks = ((pm.extendedData.getD []).filter
      (fun d => d.name = "gx_media_links")).map (fun d => d.value) ∧
    assocLookup "gx_media_links" rec.ExtendedData = none ∧
    ∀ k, k ≠ "gx_media_links" →
      assocLookup k rec.ExtendedData = lastValueOf k (pm.extendedData.getD []) := by
  have hfields : rec.MediaLinks = (partitionExtendedData (pm.extendedData.getD [])).2 ∧
      rec.ExtendedData = (partitionExtendedData (pm.extendedData.getD [])).1 := by
    rw [processPlacemark] at h
    cases hg : placemarkGeometry pm with
    | none =>
      rw [hg] at h
      exact absurd h (by simp)
    | some g =>
      obtain ⟨gt, g'⟩ := g
      obtain ⟨craw, wkt⟩ := g'
      rw [hg] at h
      dsimp only at h
      split at h
      · exact absurd h (by simp)
      · obtain hrec := (Option.some.injEq .. ▸ h).symm
        rw [hrec]
        exact ⟨rfl, rfl⟩
  obtain ⟨hml, hed⟩ := hfields
  refine ⟨?_, ?_, ?_⟩
  · rw [hml, partitionExtendedData, partition_mediaLinks]
    rfl
  · rw [hed, partitionExtendedData]
    exact partition_marker_absent _ _ rfl
  · intro k hk
    rw [hed, partitionExtendedData, partition_generic_lookup _ _ _ hk]
    show orOpt _ none = _
    cases lastValueOf k (pm.extendedData.getD []) <;> rfl

/-- Witness for C3's amended theorem at a concrete feature: the media list
keeps both marker entries in order, the marker key is absent from the generic
map, and the duplicated generic key `a` resolves to its last value. -/
theorem extendedAttributePartition_witness :
    recW3.MediaLinks = [ "u1", "u2" ] ∧
    assocLookup "gx_media_links" recW3.ExtendedData = none ∧
    assocLookup "a" recW3.ExtendedData = some "2" := by
  have h := extendedAttributePartition pmW3 [] recW3 (by decide)
  refine ⟨?_, h.2.1, ?_⟩
  · rw [h.1]
    decide
  · rw [h.2.2 "a" (by decide)]
    decide

/-- Helper: the style id stored by a successful normalization is the
hash-stripped style URL. -/
theorem processPlacemark_styleID (pm : Placemark) (path : List String)
    (rec : PlacemarkRecord) (h : processPlacemark pm path = some rec) :
    rec.StyleID = trimStyleHash pm.styleUrl := by
  rw [processPlacemark] at h
  cases hg : placemarkGeometry pm with
  | none =>
    rw [hg] at h
    exact absurd h (by simp)
  | some g =>
    obtain ⟨gt, g'⟩ := g
    obtain ⟨craw, wkt⟩ := g'
    rw [hg] at h
    dsimp only at h
    split at h
    · exact absurd h (by simp)
    · obtain hrec := (Option.some.injEq .. ▸ h).symm
      rw [hrec]

/-- C6: a feature with no geometry block, or whose geometry yields an empty
WKT (no parsed coordinates for a Point, fewer than two for a LineString,
fewer than three in the outer ring for a Polygon), is normalized to `none`
and so contributes nothing to the flattened output list, which is exactly
the `filterMap` of the normalizer over the pre-order feature enumeration. -/
theorem featureDroppedWhenNoUsableGeometry (doc : Document) (pm : Placemark)
    (path : List String)
    (h : (pm.point = none ∧ pm.lineString = none ∧ pm.polygon = none) ∨
      (∃ pt, pm.point = some pt ∧ parseCoordinates (goTrim pt) = []) ∨
      (pm.point = none ∧ ∃ ls, pm.lineString = some ls ∧
        (parseCoordinates (goTrim ls)).length < 2) ∨
      (pm.point = none ∧ pm.lineString = none ∧ ∃ pg, pm.polygon = some pg ∧
        (parseCoordinates pg.outerBoundary).length < 3)) :
    processPlacemark pm path = none ∧
    parseKMLRecords doc =
      (preorderDocument doc).filterMap fun q => processPlacemark q.1 q.2 := by
  refine ⟨?_, parseKMLRecords_eq_preorder doc⟩
  rw [processPlacemark]
  rcases h with ⟨h1, h2, h3⟩ | ⟨pt, hpt, hc⟩ | ⟨h1, ls, hls, hc⟩ | ⟨h1, h2, pg, hpg, hc⟩
  · rw [placemarkGeometry, h1, h2, h3]
  · rw [placemarkGeometry, hpt]
    dsimp only
    rw [buildPointWKT, hc]
    rfl
  · rw [placemarkGeometry, h1, hls]
    dsimp only
    rw [buildLineStringWKT, if_pos hc]
    rfl
  · rw [placemarkGeometry, h1, h2, hpg]
    dsimp only
    rw [buildPolygonWKT, polygonRings, if_pos hc]
    rfl

/-- Witness for C6: the geometry-less `pmW6` is dropped, and on `docW6` the
flattened output is the filtered pre-order enumeration. -/
theorem featureDroppedWhenNoUsableGeometry_witness :
    processPlacemark pmW6 [] = none ∧
    parseKMLRecords docW6 =
      (preorderDocument docW6).filterMap fun q => processPlacemark q.1 q.2 :=
  featureDroppedWhenNoUsableGeometry docW6 pmW6 [] (Or.inl ⟨rfl, rfl, rfl⟩)

/-- C7: on the document `A ▸ B ▸ C ▸ {D, E}` with a placemark in `D`, the
Go-slice semantics of `append(parentPath, folder.Name)` make the record
persisted for that placemark carry the folder path `[A, B, C, E]` — the
later sibling `E` overwrote the shared backing array — while the path at the
moment the feature was encountered (value semantics) is `[A, B, C, D]`. -/
theorem folderPathSliceAliasing :
    parseKMLPathsG docAlias = [("p", ["A", "B", "C", "E"])] ∧
    (parseKMLRecords docAlias).map (fun r => (r.Name, r.FolderPath)) =
      [("p", ["A", "B", "C", "D"])] := by
  constructor
  · decide
  · decide

/-- C4 counterexample: the feature named `10/1/2017 09:41:56 PM - Event`
(two-digit month and hour, one-digit day) defeats every format pattern — the
patterns without zero-padding are too short once the prefix is truncated to
the layout length, and the zero-padded ones reject the one-digit day — so
its TimelineEvent's timestamp is null, not non-null as claimed. -/
theorem timelineExampleTimestampNull :
    ¬ ∀ e ∈ GetTimeline [rowC4], e.timestamp ≠ none := by
  intro h
  exact h eventC4 (by decide) (by decide)

/-- C4 (amended): the feature named `10/1/2017 09:41:56 PM - Event` with a
Point geometry yields exactly one TimelineEvent, which is present in the
output with a NULL timestamp (no format pattern parses the name prefix) and
a non-null location re-parsed from the Point's GeoJSON encoding. -/
theorem timelineExampleEvent :
    GetTimeline [rowC4] = [eventC4] ∧
    eventC4.timestamp = none ∧
    eventC4.location = some { lat := mkRat 3 2, lon := mkRat 5 2 } := by
  refine ⟨by decide, by decide, by decide⟩

/-- C8: the Timeline Deriver emits exactly one event per record whose name
matches the date-like filter, sorted lexicographically by name, and a
matching record whose name-prefix fails every format pattern still yields an
event with an absent timestamp. -/
theorem timelineOneEventPerMatchSortedByName (db : List TimelineRow) :
    (GetTimeline db).length = (db.filter fun r => nameDateFilter r.name).length ∧
    (GetTimeline db).Pairwise (fun a b => strLe a.name b.name) ∧
    ∀ r ∈ db, nameDateFilter r.name = true →
      mkTimelineEvent r ∈ GetTimeline db ∧
      (parseTimestampFromName r.name = none → (mkTimelineEvent r).timestamp = none) := by
  refine ⟨?_, ?_, ?_⟩
  · rw [GetTimeline, List.length_map]
    exact (List.perm_insertionSort rowNameLe _).length_eq
  · rw [GetTimeline]
    have hs : List.Sorted rowNameLe
        ((db.filter fun r => nameDateFilter r.name).insertionSort rowNameLe) :=
      List.sorted_insertionSort rowNameLe _
    exact List.Pairwise.map _ (fun a b hab => hab) hs
  · intro r hr hmatch
    constructor
    · rw [GetTimeline]
      refine List.mem_map_of_mem _ ?_
      have hmem : r ∈ db.filter fun r => nameDateFilter r.name :=
        List.mem_filter.mpr ⟨hr, hmatch⟩
      exact ((List.perm_insertionSort rowNameLe _).mem_iff).mpr hmem
    · exact fun hn => hn

/-- Witness for C8: a date-filtered name that defeats every layout still
produces an event, with no timestamp. -/
theorem timelineOneEventPerMatchSortedByName_witness :
    mkTimelineEvent rowW8 ∈ GetTimeline [rowW8] ∧
    (mkTimelineEvent rowW8).timestamp = none := by
  have h := (timelineOneEventPerMatchSortedByName [rowW8]).2.2 rowW8
    (List.mem_singleton_self _) (by decide)
  exact ⟨h.1, h.2 (by decide)⟩

/-- C9: the Feature Normalizer stores the style token with one leading `#`
stripped when present (and unchanged otherwise); at import time the
persisted rows are exactly the batch's rows, and each row's style reference
is the record's token when a style with that id exists, `null` when the
token is empty or matches no imported style. -/
theorem styleReferenceResolution :
    (∀ pm path rec, processPlacemark pm path = some rec →
      (∀ rest, pm.styleUrl.data = '#' :: rest → rec.StyleID = String.mk rest) ∧
      ((∀ rest, pm.styleUrl.data ≠ '#' :: rest) → rec.StyleID = pm.styleUrl)) ∧
    (∀ db pms, (importPlacemarks [] db pms).2.placemarks =
      db.placemarks ++ importedRows db.styles db.nextId pms) ∧
    (∀ styles startId pms,
      List.Forall₂ (fun (pm : PlacemarkRecord) (row : DbPlacemarkRow) =>
        (pm.StyleID ≠ "" → pm.StyleID ∈ styles → row.styleId = some pm.StyleID) ∧
        (pm.StyleID = "" ∨ pm.StyleID ∉ styles → row.styleId = none))
        pms (importedRows styles startId pms)) := by
  refine ⟨?_, ?_, ?_⟩
  · intro pm path rec h
    have hsid := processPlacemark_styleID pm path rec h
    constructor
    · intro rest hdata
      rw [hsid, trimStyleHash, hdata]
      rfl
    · intro hneg
      rw [hsid, trimStyleHash]
      cases hsd : pm.styleUrl.data with
      | nil => rfl
      | cons c cs =>
        split
        · next rest heq => exact absurd (hsd.trans heq) (hneg rest)
        · rfl
  · intro db pms
    rw [importPlacemarks_noFail]
  · intro styles startId pms
    induction pms generalizing startId with
    | nil => exact List.Forall₂.nil
    | cons pm rest ih =>
      refine List.Forall₂.cons ⟨?_, ?_⟩ (ih (startId + 1))
      · intro hne hmem
        have hc : pm.StyleID ≠ "" ∧ pm.StyleID ∈ styles := ⟨hne, hmem⟩
        show (if pm.StyleID ≠ "" ∧ pm.StyleID ∈ styles then some pm.StyleID else none) = _
        rw [if_pos hc]
      · intro hcase
        have hc : ¬ (pm.StyleID ≠ "" ∧ pm.StyleID ∈ styles) := by
          rcases hcase with hemp | hnm
          · exact fun hcon => hcon.1 hemp
          · exact fun hcon => hnm hcon.2
        show (if pm.StyleID ≠ "" ∧ pm.StyleID ∈ styles then some pm.StyleID else none) = _
        rw [if_neg hc]

/-- Witness for C9: `#s1` is stored as `s1`; importing a record whose token
matches the imported style `s1` persists it, and one whose token matches no
style persists `null`. -/
theorem styleReferenceResolution_witness :
    recW3.StyleID = String.mk "s1".data ∧
    (importPlacemarks [] dbW1 [pmRecW1, pmRecW2]).2.placemarks.map
      (fun row => row.styleId) = [some "s1", none] := by
  constructor
  · exact ((styleReferenceResolution.1 pmW3 [] recW3 (by decide)).1
      "s1".data (by decide))
  · rw [styleReferenceResolution.2.1 dbW1 [pmRecW1, pmRecW2]]
    decide

/-- C1: the Import Writer's phase-2 transaction is all-or-nothing: it
succeeds exactly when none of its inserts (one per feature plus one per
extended-attribute pair) fails; on any failure it returns an error and the
visible database is exactly the pre-import state; on success the committed
state contains precisely the batch's rows appended to the original state. -/
theorem importAtomicity (failures : List Bool) (db : DBState)
    (pms : List PlacemarkRecord) :
    ((importPlacemarks failures db pms).1 = .ok () ↔
      ∀ b ∈ failures.take (totalInserts pms), b = false) ∧
    ((importPlacemarks failures db pms).1 ≠ .ok () →
      (importPlacemarks failures db pms).2 = db) ∧
    ((importPlacemarks failures db pms).1 = .ok () →
      (importPlacemarks failures db pms).2 =
        { db with
          placemarks := db.placemarks ++ importedRows db.styles db.nextId pms
          placemarkData := db.placemarkData ++ importedData db.nextId pms
          nextId := db.nextId + pms.length }) := by
  refine ⟨?_, ?_, ?_⟩
  · rw [importPlacemarks]
    by_cases hp : pms.isEmpty
    · rw [if_pos hp]
      rw [List.isEmpty_iff] at hp
      subst hp
      simp [totalInserts]
    · rw [if_neg hp]
      exact importLoop_ok_iff pms failures db db
  · intro h
    rw [importPlacemarks] at h ⊢
    by_cases hp : pms.isEmpty
    · rw [if_pos hp] at h
      exact absurd rfl h
    · rw [if_neg hp] at h ⊢
      exact importLoop_error_rollback pms failures db db h
  · intro h
    rw [importPlacemarks] at h ⊢
    by_cases hp : pms.isEmpty
    · rw [if_pos hp]
      rw [List.isEmpty_iff] at hp
      subst hp
      simp [importedRows, importedData]
    · rw [if_neg hp] at h ⊢
      rw [importLoop_ok_eq_noFail pms failures db db h, importLoop_noFail]

/-- Witness for C1: with the second insert (the extended-attribute row)
failing, the import errors and the visible database is unchanged. -/
theorem importAtomicity_witness :
    (importPlacemarks [false, true] dbW1 [pmRecW1]).1 ≠ .ok () ∧
    (importPlacemarks [false, true] dbW1 [pmRecW1]).2 = dbW1 := by
  have h := importAtomicity [false, true] dbW1 [pmRecW1]
  have hne : (importPlacemarks [false, true] dbW1 [pmRecW1]).1 ≠ .ok () := by
    intro hok
    exact absurd (h.1.mp hok true (by decide)) (by decide)
  exact ⟨hne, h.2.1 hne⟩

/-- C10: a bounding-box parameter that is missing or non-numeric defaults to
0, and any bound equal to exactly 0 makes the handler reject the request
with `missing bbox parameters` before any store query runs — so a
legitimate box with an edge exactly on the equator or prime meridian is
never served. -/
theorem bboxZeroBoundRejected :
    (∀ params key d, queryGet params key = "" → getFloatParam params key d = d) ∧
    (∀ params key d, queryGet params key ≠ "" →
      parseFloatFull (queryGet params key) = none → getFloatParam params key d = d) ∧
    (∀ params,
      getFloatParam params "min_lon" 0 = 0 ∨ getFloatParam params "min_lat" 0 = 0 ∨
      getFloatParam params "max_lon" 0 = 0 ∨ getFloatParam params "max_lat" 0 = 0 →
      getPlacemarksInBBox params = .error "missing bbox parameters") := by
  refine ⟨?_, ?_, ?_⟩
  · intro params key d h
    rw [getFloatParam, if_pos h]
  · intro params key d h1 h2
    rw [getFloatParam, if_neg h1, h2]
  · intro params h
    rcases h with h | h | h | h <;> simp [getPlacemarksInBBox, h]

/-- Witness for C10: an omitted `min_lon` and a non-numeric `max_lon` both
default to 0, and a request whose `min_lat` is the string `0` — the equator
edge — is rejected before any store query. -/
theorem bboxZeroBoundRejected_witness :
    getFloatParam [("max_lon", "abc")] "min_lon" 0 = 0 ∧
    getFloatParam [("max_lon", "abc")] "max_lon" 0 = 0 ∧
    getPlacemarksInBBox [("min_lon", "1"), ("min_lat", "0"),
      ("max_lon", "2"), ("max_lat", "2")] = .error "missing bbox parameters" := by
  refine ⟨?_, ?_, ?_⟩
  · exact bboxZeroBoundRejected.1 [("max_lon", "abc")] "min_lon" 0 (by decide)
  · exact bboxZeroBoundRejected.2.1 [("max_lon", "abc")] "max_lon" 0
      (by decide) (by decide)
  · exact bboxZeroBoundRejected.2.2 _ (Or.inr (Or.inl (by decide)))

end Mandalay
